import Mathlib

/-!
Verification of the GameDrop video-compression core.

This file is a shallow embedding, in Lean 4, of the pure decision logic of
`gamedrop/core/video_processor.py` (the `compress_clip` orchestrator:
resolution tier planning, bitrate budgeting, the tier loop, the size-recovery
stage, the progress accounting and the webhook loop) and of
`gamedrop/utils/ffmpeg_core.py` (the ffmpeg command construction of
`compress_and_send_video`, its `time=` progress parsing, and the
`send_to_discord` semantics).

Modelling conventions:
* Python floats are modelled as exact rationals (`ℚ`); Python `int(x)` is
  truncation toward zero (`pyInt`); Python `round(x)` is round-half-to-even
  (`pyRound`).
* Effects are explicit: raised exceptions become `Except.error`; the
  filesystem and the external ffmpeg process are abstracted into an
  environment (`Env`) recording, per tier, the progress values the encoder
  pass reports on stderr and the size of the file it produces (if any).
* Byte strings on disk are abstracted to content identifiers (`ℕ`); two
  paths hold byte-identical data iff their identifiers are equal.
-/

/-- Python `int()` applied to a float: truncation toward zero. -/
def pyInt (q : ℚ) : ℤ := if 0 ≤ q then ⌊q⌋ else ⌈q⌉

/-- Python `round()` (no extra digits): round half to even. -/
def pyRound (q : ℚ) : ℤ :=
  if q - ⌊q⌋ < 1/2 then ⌊q⌋
  else if 1/2 < q - ⌊q⌋ then ⌊q⌋ + 1
  else if Even ⌊q⌋ then ⌊q⌋ else ⌊q⌋ + 1

/-- Python `round(x, 3)`: round to three decimal places, half to even.
Used for `duration = round(end_time - start_time, 3)`
(video_processor.py line 284). -/
def round3 (q : ℚ) : ℚ := (pyRound (q * 1000) : ℚ) / 1000

/-- `AUDIO_BITRATE_KBPS_ALLOWANCE = 128` (video_processor.py line 56). -/
def AUDIO_BITRATE_KBPS_ALLOWANCE : ℚ := 128

/-- `MIN_ABS_VIDEO_BITRATE_KBPS = 250` (video_processor.py line 57). -/
def MIN_ABS_VIDEO_BITRATE_KBPS : ℚ := 250

/-- `BITRATE_CALCULATION_SAFETY_FACTOR = 0.90` (video_processor.py line 58). -/
def BITRATE_CALCULATION_SAFETY_FACTOR : ℚ := 90 / 100

/-- The bitrate-budget calculation of `compress_clip`
(video_processor.py lines 352-370), with the safety factor as a parameter
(0.90 for tier attempts, 0.85 for the final recovery pass):

    effective_max_size_for_bitrate_calc = max_size * safety_factor
    target_total_bits = effective_max_size_for_bitrate_calc * 8
    audio_bits_allowance = AUDIO_BITRATE_KBPS_ALLOWANCE * 1000 * duration
    target_video_bits = target_total_bits - audio_bits_allowance
    if target_video_bits <= 0: bps = MIN_ABS_VIDEO_BITRATE_KBPS * 1000
    else: bps = target_video_bits / duration
    clamped = max(MIN_ABS_VIDEO_BITRATE_KBPS, bps / 1000)
    int(clamped)

The result is the integer kbps value rendered as `f"{int(...)}k"`. -/
def target_bitrate_kbps (duration max_size safety_factor : ℚ) : ℤ :=
  let effective_max_size := max_size * safety_factor
  let target_total_bits := effective_max_size * 8
  let audio_bits_allowance := AUDIO_BITRATE_KBPS_ALLOWANCE * 1000 * duration
  let target_video_bits := target_total_bits - audio_bits_allowance
  let target_video_bitrate_bps :=
    if target_video_bits ≤ 0 then MIN_ABS_VIDEO_BITRATE_KBPS * 1000
    else target_video_bits / duration
  pyInt (max MIN_ABS_VIDEO_BITRATE_KBPS (target_video_bitrate_bps / 1000))

/-- The bitrate string `f"{int(clamped_video_bitrate_kbps)}k"`
(video_processor.py line 370). -/
def target_bitrate_str (duration max_size safety_factor : ℚ) : String :=
  toString (target_bitrate_kbps duration max_size safety_factor) ++ "k"

/-- Modelled from the spec's formula (§3 BitrateBudget): video bitrate in
bits per second `max(min_floor_kbps*1000, (s*8*safety_factor - 128000*d)/d)`,
expressed in integer kbps; compared against the source's calculation. -/
def spec_bitrate_kbps (d s safety_factor : ℚ) : ℤ :=
  pyInt (max (250 * 1000) ((s * 8 * safety_factor - 128000 * d) / d) / 1000)

/-- `current_seconds = h * 3600 + m * 60 + s` parsed from a `time=HH:MM:SS.ms`
marker (ffmpeg_core.py lines 620-622). -/
def current_seconds (h m s : ℚ) : ℚ := h * 3600 + m * 60 + s

/-- `progress = min(100, int((current_seconds / duration_seconds) * 100))`
(ffmpeg_core.py line 623). -/
def ffmpeg_progress (elapsed duration : ℚ) : ℤ :=
  min 100 (pyInt (elapsed / duration * 100))

/-- `DEFAULT_RESOLUTION_TIERS` (video_processor.py lines 62-68). -/
def DEFAULT_RESOLUTION_TIERS : List (ℕ × ℕ × String) :=
  [(1920, 1080, "1080p"), (1280, 720, "720p"), (854, 480, "480p"),
   (640, 360, "360p")]

/-- The `(width, height)` key a tier is deduplicated by. -/
def tierKey (t : ℕ × ℕ × String) : ℕ × ℕ := (t.1, t.2.1)

/-- Pixel area of a tier, the sort key `x[0] * x[1]`
(video_processor.py line 313). -/
def tierArea (t : ℕ × ℕ × String) : ℕ := t.1 * t.2.1

/-- The `is_not_upscale` flag of the filtering loop
(video_processor.py lines 301-305): false exactly when the source resolution
is known and `res_w > ow or res_h > oh`. -/
def notUpscale (original : Option (ℕ × ℕ)) (t : ℕ × ℕ × String) : Bool :=
  match original with
  | some o => !(decide (o.1 < t.1) || decide (o.2 < t.2.1))
  | none => true

/-- One iteration of the filtering loop over `DEFAULT_RESOLUTION_TIERS`
(video_processor.py lines 300-310).  The state is the pair
`(actual_tiers_to_try, added_resolutions)`; a ladder entry is appended only
if it is not an upscale and its `(width, height)` is not already added. -/
def addTierStep (original : Option (ℕ × ℕ))
    (st : List (ℕ × ℕ × String) × List (ℕ × ℕ)) (t : ℕ × ℕ × String) :
    List (ℕ × ℕ × String) × List (ℕ × ℕ) :=
  if notUpscale original t then
    if tierKey t ∈ st.2 then st
    else (st.1 ++ [t], st.2 ++ [tierKey t])
  else st

/-- The unsorted tier list built by `compress_clip`
(video_processor.py lines 292-310): the source resolution first (labelled
`"original"`) when known, then the non-upscaling, non-duplicate entries of
the default ladder. -/
def planTiersUnsorted (original : Option (ℕ × ℕ)) : List (ℕ × ℕ × String) :=
  let base : List (ℕ × ℕ × String) × List (ℕ × ℕ) :=
    match original with
    | some o => ([(o.1, o.2, "original")], [(o.1, o.2)])
    | none => ([], [])
  (DEFAULT_RESOLUTION_TIERS.foldl (addTierStep original) base).1

/-- The full tier planner (video_processor.py lines 292-320): filter and
deduplicate, sort by descending pixel area (a stable sort models Python's
`list.sort(key=..., reverse=True)`), and fall back to a single synthetic tier
if the list would be empty. -/
def planTiers (original : Option (ℕ × ℕ)) : List (ℕ × ℕ × String) :=
  if (List.insertionSort (fun a b => tierArea b ≤ tierArea a)
      (planTiersUnsorted original)).isEmpty then
    match original with
    | some o => [(o.1, o.2, "original_fallback")]
    | none => [(640, 360, "360p_fallback")]
  else
    List.insertionSort (fun a b => tierArea b ≤ tierArea a)
      (planTiersUnsorted original)

/-- Outcome of one tier's invocation of `compress_and_send_video`, as
observed by `compress_clip`:
* `emits` — the raw progress percentages the executor's stderr-parsing loop
  passes to the tier callback, across all internal encode attempts (each is
  `min(100, ...)` in the source, which the model applies on use);
* `size?` — `some s` when the call returned and the temp output file exists
  with size `s`; `none` when the call raised or produced no file.
In both terminating cases the tier callback additionally receives the value
100: on success from the executor's final `progress_callback(100)`
(ffmpeg_core.py line 642), on an exception from the handler's
`tier_ffmpeg_progress_callback(100)` (video_processor.py line 411). -/
structure TierPass where
  emits : List ℕ
  size? : Option ℕ
deriving Repr, DecidableEq

/-- The environment a `compress_clip` run observes: the input file's size,
its probed resolution, the behaviour of each tier's encode pass, the
behaviour of the final recovery pass, and the outcome of each configured
webhook delivery (`true` = `send_to_discord` returns True, `false` = it
raises). -/
structure Env where
  originalFileSize : ℕ
  originalResolution : Option (ℕ × ℕ)
  tierPass : ℕ → TierPass
  recoveryRaised : Bool
  recoveryEmits : List ℕ
  recoveryFile : Option (ℕ × ℕ)
  webhookSends : List Bool

/-- The tier progress mapping (video_processor.py lines 340-345):
`int(current_tier_progress_base + (p/100.0) * current_tier_progress_budget)`
with `base = (tier_idx / num_tiers) * 90.0` and
`budget = (1 / num_tiers) * 90.0`. -/
def tierEmit (n idx p : ℕ) : ℕ :=
  (pyInt ((idx : ℚ) / (n : ℚ) * 90 + (p : ℚ) / 100 * (1 / (n : ℚ) * 90))).toNat

/-- The progress values the caller's callback receives during one tier:
each stderr-derived percentage (already clamped by `min(100, ...)` in
ffmpeg_core.py line 623) followed by the terminal 100, all mapped through
`tierEmit`. -/
def tierSegment (n idx : ℕ) (emits : List ℕ) : List ℕ :=
  (emits.map (fun p => min 100 p) ++ [100]).map (tierEmit n idx)

/-- Result of the tier loop (video_processor.py lines 339-411):
* `trace` — progress values emitted;
* `accepted` — `some (idx, size)` when tier `idx` produced a file of
  `size ≤ max_size` and was moved into the final output path (line 399),
  ending the loop;
* `best` — the `best_attempt_so_far` record (smallest size observed);
* `attempted` — how many tiers were attempted. -/
structure LoopOut where
  trace : List ℕ
  accepted : Option (ℕ × ℕ)
  best : Option (ℕ × ℕ)
  attempted : ℕ
deriving Repr, DecidableEq

/-- The tier loop of `compress_clip` (video_processor.py lines 339-411),
over the per-tier pass outcomes.  `n` is the number of tiers, `idx` the
index of the first pass in `passes`, `best` the best attempt so far.  A tier
whose pass produces a file updates `best` when strictly smaller than any
seen; the first tier whose size is `≤ maxSize` is accepted (emitting
`int(90.0)`) and the loop stops. -/
def runTierLoop (maxSize n : ℕ) (idx : ℕ) (best : Option (ℕ × ℕ)) :
    List TierPass → LoopOut
  | [] => ⟨[], none, best, 0⟩
  | pass :: rest =>
    let seg := tierSegment n idx pass.emits
    match pass.size? with
    | some s =>
      let best' :=
        match best with
        | none => some (idx, s)
        | some b => if s < b.2 then some (idx, s) else some b
      if s ≤ maxSize then ⟨seg ++ [90], some (idx, s), best', 1⟩
      else
        let r := runTierLoop maxSize n (idx + 1) best' rest
        ⟨seg ++ r.trace, r.accepted, r.best, r.attempted + 1⟩
    | none =>
      let r := runTierLoop maxSize n (idx + 1) best rest
      ⟨seg ++ r.trace, r.accepted, r.best, r.attempted + 1⟩

/-- The size-recovery stage of `compress_clip`
(video_processor.py lines 429-508), at the file level.  `pre` is the
oversized pre-recovery file moved aside as
`output_path + ".temp_oversized_original.mp4"`, given as a
`(content, size)` pair; `passRaised` tells whether the recovery invocation
of `compress_and_send_video` raised; `passFile` is the `(content, size)` of
the file the recovery pass left at `output_path`, if any.  The result is the
`(content, size)` of the final output file: the recompressed file only if it
exists, is non-empty and fits (`recompressed_size <= max_size and
recompressed_size > 0`, line 482); every other outcome — exception, no
output file, empty output, still oversized — restores the pre-recovery file
(`shutil.move`, lines 489, 496, 506), so the stage never raises and
`compress_clip` goes on to report success. -/
def recoveryStage (maxSize : ℕ) (pre : ℕ × ℕ) (passRaised : Bool)
    (passFile : Option (ℕ × ℕ)) : ℕ × ℕ :=
  if passRaised then pre
  else
    match passFile with
    | some f => if f.2 ≤ maxSize ∧ 0 < f.2 then f else pre
    | none => pre

/-- The final-pass progress mapping (video_processor.py lines 460-465):
`int(95.0 + (p/100.0) * 4.0)`. -/
def finalPassEmit (p : ℕ) : ℕ :=
  (pyInt (95 + (p : ℚ) / 100 * 4)).toNat

/-- Progress values emitted during the recovery pass: the clamped
stderr-derived percentages, plus the executor's terminal 100 when the pass
returned (no value is emitted by the `except` handler, lines 500-508). -/
def recoverySegment (env : Env) : List ℕ :=
  ((if env.recoveryRaised then env.recoveryEmits.map (fun p => min 100 p)
    else env.recoveryEmits.map (fun p => min 100 p) ++ [100])).map finalPassEmit

/-- The webhook delivery loop of `compress_clip`
(video_processor.py lines 524-540) combined with the `send_to_discord`
semantics (ffmpeg_core.py lines 668-704): `send_to_discord` returns True on
success and raises on every failure path, so a failing destination raises
out of the `for` loop into the surrounding `except` and the remaining
destinations are never attempted.  `sends` lists, in order, whether each
destination's delivery would succeed; `acc` is the `webhook_success` flag so
far.  Returns the final `webhook_success` flag and the number of
destinations actually attempted. -/
def webhookLoop : List Bool → Bool → Bool × ℕ
  | [], acc => (acc, 0)
  | send :: rest, acc =>
    if send then
      let r := webhookLoop rest true
      (r.1, r.2 + 1)
    else (acc, 1)

/-- `if max_size > original_file_size: max_size = original_file_size`
(video_processor.py lines 269-271). -/
def adjusted_max_size (env : Env) (max_size : ℕ) : ℕ :=
  if env.originalFileSize < max_size then env.originalFileSize else max_size

/-- The tier passes `compress_clip` runs, in planned-tier order. -/
def passes_list (env : Env) (n : ℕ) : List TierPass :=
  (List.range n).map env.tierPass

/-- The failure dictionary built by the top-level `except` handler
(video_processor.py lines 572-578). -/
structure CompressionResult where
  success : Bool
  message : String
  filePath : Option String
  fileSize : ℕ
  webhookSuccess : Bool
deriving Repr, DecidableEq

/-- The failure result of the top-level `except` handler
(video_processor.py lines 572-578). -/
def failure_result (e : String) : CompressionResult :=
  ⟨false, "Error processing video: " ++ e, none, 0, false⟩

/-- The success result (video_processor.py lines 548-554). -/
def success_result (output_path : String) (size : ℕ) (webhook_success : Bool) :
    CompressionResult :=
  ⟨true, "Video processed successfully", some output_path, size, webhook_success⟩

/-- The recovery phase as embedded in `compress_clip`
(video_processor.py lines 429-509): runs only when the accepted size still
exceeds `max_size`; returns the final file size together with the progress
values it emits. -/
def recovery_phase (env : Env) (maxSize s : ℕ) : ℕ × List ℕ :=
  if maxSize < s then
    ((recoveryStage maxSize (0, s) env.recoveryRaised env.recoveryFile).2,
      recoverySegment env)
  else (s, [])

/-- The webhook phase (video_processor.py lines 519-542): when webhooks are
configured, `int(90.0 + 10.0/2) = 95` is emitted and the delivery loop runs;
otherwise nothing happens. -/
def webhook_phase (sends : List Bool) : Bool × List ℕ :=
  if sends.isEmpty then (false, [])
  else ((webhookLoop sends false).1, [95])

/-- The tier loop as `compress_clip` invokes it: over the planned tiers, with
the capped `max_size` and no best attempt yet. -/
def tierLoopOut (env : Env) (max_size : ℕ) : LoopOut :=
  runTierLoop (adjusted_max_size env max_size)
    (planTiers env.originalResolution).length 0 none
    (passes_list env (planTiers env.originalResolution).length)

/-- The body of `compress_clip` (video_processor.py lines 263-554), i.e.
everything inside the top-level `try`.  `Except.error (e, tr)` models an
exception `e` escaping the body after the progress values `tr` were emitted;
`Except.ok (result, tr)` is a normal return.  Steps, in source order:
cap `max_size` at the input file's size; compute
`duration = round(end - start, 3)` and raise when non-positive; plan the
resolution tiers; run the tier loop; when no tier was accepted, emit 0
(line 415) and raise; otherwise run the (recovery and) webhook phases and
emit the final 100 (line 545). -/
def compress_body (env : Env) (start_time end_time : ℚ) (max_size : ℕ)
    (output_path : String) :
    Except (String × List ℕ) (CompressionResult × List ℕ) :=
  if round3 (end_time - start_time) ≤ 0 then
    Except.error ("Clip duration must be positive for compression.", [])
  else
    match (tierLoopOut env max_size).accepted with
    | none =>
      Except.error ("Failed to generate a compressed video file after all attempts.",
        (tierLoopOut env max_size).trace ++ [0])
    | some a =>
      Except.ok (success_result output_path
          (recovery_phase env (adjusted_max_size env max_size) a.2).1
          (webhook_phase env.webhookSends).1,
        (tierLoopOut env max_size).trace
          ++ (recovery_phase env (adjusted_max_size env max_size) a.2).2
          ++ (webhook_phase env.webhookSends).2 ++ [100])

/-- `compress_clip` (video_processor.py lines 177-578): the body wrapped in
the top-level `try`/`except Exception` handler, which logs, emits the
progress reset to 0 (line 560) and returns the failure dictionary
(lines 572-578) instead of propagating the exception.  Returns the result
dictionary together with the full sequence of progress-callback values. -/
def compress_clip (env : Env) (start_time end_time : ℚ) (max_size : ℕ)
    (output_path : String) : CompressionResult × List ℕ :=
  match compress_body env start_time end_time max_size output_path with
  | Except.ok r => r
  | Except.error etr => (failure_result etr.1, etr.2 ++ [0])

/-- Parameters of one ffmpeg command construction inside
`compress_and_send_video` (ffmpeg_core.py lines 342-586).  The
already-formatted `f"{start_time:.3f}"` and `f"{duration:.3f}"` strings are
taken as inputs, since their decimal rendering is irrelevant to the
command's structure.  `vaapiDevice` is the `has_vaapi_support()` result and
`steamDeck` the `is_steam_deck()` result. -/
structure EncodeParams where
  ffmpegPath : String
  inputPath : String
  outputPath : String
  startStr : String
  durStr : String
  codec : String
  bitrate : String
  resolution : String
  vaapiDevice : Option String
  steamDeck : Bool
deriving Repr, DecidableEq

/-- The argument vector `compress_and_send_video` builds for a single encode
attempt (ffmpeg_core.py lines 468-586).  Branches, in source order:
stream copy when `bitrate == "0"`; VA-API (Steam Deck layout without any
scale filter, standard Linux layout with the fixed
`scale_vaapi=w=1920:h=1080` filter, or the software fallback when no VA-API
device is present); AMD AMF (no preset, `-quality balanced`); and the
generic software/hardware layout with `-preset medium` and a
`scale={resolution}` filter.  Exactly one subprocess is spawned per attempt
(lines 591-598); no `-pass`/`-passlogfile` pair and no null-sink first pass
exist anywhere in the construction. -/
def buildCommand (p : EncodeParams) : List String :=
  if p.bitrate = "0" then
    [p.ffmpegPath, "-y", "-ss", p.startStr, "-i", p.inputPath,
     "-t", p.durStr, "-c:v", "copy", "-c:a", "copy",
     "-movflags", "+faststart", p.outputPath]
  else if p.codec = "h264_vaapi" ∨ p.codec = "hevc_vaapi" then
    match p.vaapiDevice with
    | some dev =>
      if p.steamDeck then
        [p.ffmpegPath, "-y", "-hwaccel", "vaapi", "-hwaccel_device", dev,
         "-ss", p.startStr, "-i", p.inputPath, "-t", p.durStr,
         "-vf", "format=nv12,hwupload", "-c:v", p.codec, "-b:v", p.bitrate,
         "-c:a", "aac", "-b:a", "128k", "-movflags", "+faststart",
         p.outputPath]
      else
        [p.ffmpegPath, "-y", "-hwaccel", "vaapi", "-hwaccel_device", dev,
         "-ss", p.startStr, "-i", p.inputPath, "-t", p.durStr,
         "-vf", "format=nv12,hwupload,scale_vaapi=w=1920:h=1080:format=nv12",
         "-c:v", p.codec, "-b:v", p.bitrate,
         "-c:a", "aac", "-b:a", "128k", "-movflags", "+faststart",
         p.outputPath]
    | none =>
      [p.ffmpegPath, "-y", "-ss", p.startStr, "-i", p.inputPath,
       "-t", p.durStr, "-c:v", "h264", "-preset", "medium",
       "-vf", "scale=" ++ p.resolution, "-b:v", p.bitrate,
       "-c:a", "aac", "-b:a", "128k", "-movflags", "+faststart",
       p.outputPath]
  else if p.codec = "h264_amf" then
    [p.ffmpegPath, "-y", "-ss", p.startStr, "-i", p.inputPath,
     "-t", p.durStr, "-c:v", p.codec, "-vf", "scale=" ++ p.resolution,
     "-b:v", p.bitrate, "-quality", "balanced",
     "-c:a", "aac", "-b:a", "128k", "-movflags", "+faststart",
     p.outputPath]
  else
    [p.ffmpegPath, "-y", "-ss", p.startStr, "-i", p.inputPath,
     "-t", p.durStr, "-c:v", p.codec, "-preset", "medium",
     "-vf", "scale=" ++ p.resolution, "-b:v", p.bitrate,
     "-c:a", "aac", "-b:a", "128k", "-movflags", "+faststart",
     p.outputPath]

/-- The value following the first occurrence of `flag` in an argument
vector. -/
def argAfter (flag : String) : List String → Option String
  | [] => none
  | [_] => none
  | a :: b :: rest => if a = flag then some b else argAfter flag (b :: rest)

theorem pyInt_of_nonneg {q : ℚ} (h : 0 ≤ q) : pyInt q = ⌊q⌋ := if_pos h

/-- C2: for every duration d > 0, max_size s > 0 and safety factor in (0,1],
the computed bitrate equals `max(min_floor_kbps*1000, (s*8*sf - 128000*d)/d)`
expressed as an integer-kbps string (the fallback branch for a non-positive
video-bit budget included), and it is never below the 250 kbps floor. -/
theorem bitrate_budget_floor (d s sf : ℚ) (hd : 0 < d) (hs : 0 < s)
    (hsf0 : 0 < sf) (hsf1 : sf ≤ 1) :
    target_bitrate_kbps d s sf = spec_bitrate_kbps d s sf ∧
    250 ≤ target_bitrate_kbps d s sf ∧
    target_bitrate_str d s sf = toString (spec_bitrate_kbps d s sf) ++ "k" := by
  have hfloor : ∀ q : ℚ, (250 : ℤ) ≤ pyInt (max 250 q) := by
    intro q
    have h0 : (0 : ℚ) ≤ max 250 q := le_trans (by norm_num) (le_max_left _ _)
    rw [pyInt_of_nonneg h0]
    exact Int.le_floor.mpr (by exact_mod_cast le_max_left (250 : ℚ) q)
  have heq : target_bitrate_kbps d s sf = spec_bitrate_kbps d s sf := by
    unfold target_bitrate_kbps spec_bitrate_kbps
    simp only [AUDIO_BITRATE_KBPS_ALLOWANCE, MIN_ABS_VIDEO_BITRATE_KBPS]
    have hsz : s * sf * 8 - 128 * 1000 * d = s * 8 * sf - 128000 * d := by ring
    rw [hsz]
    set tvb := s * 8 * sf - 128000 * d with htvb
    by_cases hcase : tvb ≤ 0
    · rw [if_pos hcase]
      have hdiv : tvb / d ≤ 0 := div_nonpos_of_nonpos_of_nonneg hcase (le_of_lt hd)
      have hmax : max ((250 : ℚ) * 1000) (tvb / d) = 250 * 1000 :=
        max_eq_left (le_trans hdiv (by norm_num))
      rw [hmax]
      norm_num
    · rw [if_neg hcase]
      have h1000 : (0 : ℚ) < 1000 := by norm_num
      have : max ((250 : ℚ) * 1000) (tvb / d) / 1000
          = max ((250 : ℚ) * 1000 / 1000) (tvb / d / 1000) := by
        rcases le_total ((250 : ℚ) * 1000) (tvb / d) with h | h
        · rw [max_eq_right h, max_eq_right (by
            exact div_le_div_of_nonneg_right h (le_of_lt h1000))]
        · rw [max_eq_left h, max_eq_left (by
            exact div_le_div_of_nonneg_right h (le_of_lt h1000))]
      rw [this]
      norm_num
  refine ⟨heq, ?_, ?_⟩
  · have : (250 : ℤ) ≤ target_bitrate_kbps d s sf := by
      unfold target_bitrate_kbps
      simp only [MIN_ABS_VIDEO_BITRATE_KBPS]
      exact hfloor _
    exact this
  · unfold target_bitrate_str
    rw [heq]

/-- Witness for `bitrate_budget_floor`: the spec's own scenario
`max_size = 10MB, duration = 30s, safety factor 0.90`. -/
theorem bitrate_budget_floor_witness :
    (0 : ℚ) < 30 ∧ (0 : ℚ) < 10485760 ∧ (0 : ℚ) < 9/10 ∧ (9 : ℚ)/10 ≤ 1 ∧
    target_bitrate_kbps 30 10485760 (9/10) = spec_bitrate_kbps 30 10485760 (9/10) ∧
    250 ≤ target_bitrate_kbps 30 10485760 (9/10) := by
  have h := bitrate_budget_floor 30 10485760 (9/10) (by norm_num) (by norm_num)
    (by norm_num) (by norm_num)
  exact ⟨by norm_num, by norm_num, by norm_num, by norm_num, h.1, h.2.1⟩

/-- C8 counterexample: at the stderr marker `time=00:00:02.00` of a 3-second
clip, the code reports `min(100, int(2/3*100)) = 66`, while rounding as the
claim states would give 67. -/
theorem progress_round_cex :
    ffmpeg_progress (current_seconds 0 0 2) 3
      ≠ min 100 (pyRound (current_seconds 0 0 2 / 3 * 100)) := by
  norm_num [ffmpeg_progress, current_seconds, pyInt, pyRound]

/-- C8 (amended): for every parsed `time=HH:MM:SS.ms` marker with nonnegative
components and positive duration, the pass executor reports
`min(100, ⌊elapsed/duration*100⌋)` — truncation, not rounding — through the
progress callback, and the reported value is at most 100. -/
theorem progress_floor_amended (h m s duration : ℚ) (hh : 0 ≤ h) (hm : 0 ≤ m)
    (hs : 0 ≤ s) (hd : 0 < duration) :
    ffmpeg_progress (current_seconds h m s) duration
      = min 100 ⌊(h * 3600 + m * 60 + s) / duration * 100⌋ ∧
    ffmpeg_progress (current_seconds h m s) duration ≤ 100 := by
  have helapsed : 0 ≤ current_seconds h m s := by
    unfold current_seconds
    positivity
  have harg : 0 ≤ current_seconds h m s / duration * 100 := by
    positivity
  constructor
  · unfold ffmpeg_progress
    rw [pyInt_of_nonneg harg]
    rfl
  · exact min_le_left _ _

/-- Witness for `progress_floor_amended` at `time=00:01:30.00`, duration 200s. -/
theorem progress_floor_amended_witness :
    (0 : ℚ) ≤ 0 ∧ (0 : ℚ) ≤ 1 ∧ (0 : ℚ) ≤ 30 ∧ (0 : ℚ) < 200 ∧
    ffmpeg_progress (current_seconds 0 1 30) 200
      = min 100 ⌊((0 : ℚ) * 3600 + 1 * 60 + 30) / 200 * 100⌋ := by
  have h := progress_floor_amended 0 1 30 200 (by norm_num) (by norm_num)
    (by norm_num) (by norm_num)
  exact ⟨by norm_num, by norm_num, by norm_num, by norm_num, h.1⟩

theorem addTierStep_fst_cases (o : Option (ℕ × ℕ))
    (st : List (ℕ × ℕ × String) × List (ℕ × ℕ)) (t : ℕ × ℕ × String) :
    addTierStep o st t = st ∨
      (addTierStep o st t = (st.1 ++ [t], st.2 ++ [tierKey t]) ∧
        tierKey t ∉ st.2) := by
  unfold addTierStep
  split_ifs with h1 h2
  · exact Or.inl rfl
  · exact Or.inr ⟨rfl, h2⟩
  · exact Or.inl rfl

theorem plan_fold_length (o : Option (ℕ × ℕ)) :
    ∀ (l : List (ℕ × ℕ × String)) (st : List (ℕ × ℕ × String) × List (ℕ × ℕ)),
      st.1.length ≤ (l.foldl (addTierStep o) st).1.length := by
  intro l
  induction l with
  | nil => intro st; exact le_refl _
  | cons t l ih =>
    intro st
    simp only [List.foldl_cons]
    rcases addTierStep_fst_cases o st t with h | ⟨h, _⟩
    · rw [h]; exact ih st
    · calc st.1.length ≤ (st.1 ++ [t]).length := by simp
        _ ≤ _ := by
          have := ih (st.1 ++ [t], st.2 ++ [tierKey t])
          rw [h]
          exact this

theorem plan_fold_bounds (ow oh : ℕ) :
    ∀ (l : List (ℕ × ℕ × String)) (st : List (ℕ × ℕ × String) × List (ℕ × ℕ)),
      (∀ x ∈ st.1, x.1 ≤ ow ∧ x.2.1 ≤ oh) →
      ∀ x ∈ (l.foldl (addTierStep (some (ow, oh))) st).1, x.1 ≤ ow ∧ x.2.1 ≤ oh := by
  intro l
  induction l with
  | nil => intro st hst; exact hst
  | cons t l ih =>
    intro st hst
    simp only [List.foldl_cons]
    apply ih
    unfold addTierStep
    split_ifs with h1 h2
    · exact hst
    · intro x hx
      rcases List.mem_append.1 hx with hx | hx
      · exact hst x hx
      · have hx' : x = t := by simpa using hx
        subst hx'
        simp only [notUpscale, Bool.not_eq_true', Bool.or_eq_false_iff,
          decide_eq_false_iff_not, not_lt] at h1
        exact h1
    · exact hst

theorem plan_fold_keys (o : Option (ℕ × ℕ)) :
    ∀ (l : List (ℕ × ℕ × String)) (st : List (ℕ × ℕ × String) × List (ℕ × ℕ)),
      st.2 = st.1.map tierKey →
      List.Pairwise (fun a b => tierKey a ≠ tierKey b) st.1 →
      (l.foldl (addTierStep o) st).2 = (l.foldl (addTierStep o) st).1.map tierKey ∧
        List.Pairwise (fun a b => tierKey a ≠ tierKey b)
          (l.foldl (addTierStep o) st).1 := by
  intro l
  induction l with
  | nil => intro st h1 h2; exact ⟨h1, h2⟩
  | cons t l ih =>
    intro st h1 h2
    simp only [List.foldl_cons]
    rcases addTierStep_fst_cases o st t with h | ⟨h, hnotmem⟩
    · rw [h]; exact ih st h1 h2
    · rw [h]
      apply ih
      · simp [h1]
      · rw [List.pairwise_append]
        refine ⟨h2, List.pairwise_singleton _ _, ?_⟩
        intro a ha b hb
        have hb' : b = t := by simpa using hb
        subst hb'
        intro heq
        apply hnotmem
        rw [h1, ← heq]
        exact List.mem_map_of_mem tierKey ha

/-- C3: for every known source resolution, the planner never throws and
returns a nonempty tier list in which every tier fits within the source
dimensions (the synthetic fallback tier, which only a hypothetical empty
filtering result could produce, also fits since it reuses the source
resolution), ordered by descending pixel area and deduplicated by
`(width, height)`. -/
theorem resolution_planner_spec (ow oh : ℕ) :
    planTiers (some (ow, oh)) ≠ [] ∧
    (∀ t ∈ planTiers (some (ow, oh)), t.1 ≤ ow ∧ t.2.1 ≤ oh) ∧
    List.Sorted (fun a b => tierArea b ≤ tierArea a) (planTiers (some (ow, oh))) ∧
    List.Pairwise (fun a b => tierKey a ≠ tierKey b) (planTiers (some (ow, oh))) := by
  haveI htot : IsTotal (ℕ × ℕ × String) (fun a b => tierArea b ≤ tierArea a) :=
    ⟨fun a b => le_total (tierArea b) (tierArea a)⟩
  haveI htrans : IsTrans (ℕ × ℕ × String) (fun a b => tierArea b ≤ tierArea a) :=
    ⟨fun _ _ _ hab hbc => le_trans hbc hab⟩
  have hbase : ∀ x ∈ [((ow, oh, "original") : ℕ × ℕ × String)], x.1 ≤ ow ∧ x.2.1 ≤ oh := by
    intro x hx
    have hx' : x = (ow, oh, "original") := by simpa using hx
    subst hx'
    exact ⟨le_refl _, le_refl _⟩
  have hu_bounds : ∀ x ∈ planTiersUnsorted (some (ow, oh)), x.1 ≤ ow ∧ x.2.1 ≤ oh := by
    unfold planTiersUnsorted
    exact plan_fold_bounds ow oh DEFAULT_RESOLUTION_TIERS
      ([(ow, oh, "original")], [(ow, oh)]) hbase
  have hu_keys : List.Pairwise (fun a b => tierKey a ≠ tierKey b)
      (planTiersUnsorted (some (ow, oh))) := by
    unfold planTiersUnsorted
    exact (plan_fold_keys (some (ow, oh)) DEFAULT_RESOLUTION_TIERS
      ([(ow, oh, "original")], [(ow, oh)]) rfl
      (List.pairwise_singleton _ _)).2
  have hu_len : 1 ≤ (planTiersUnsorted (some (ow, oh))).length := by
    unfold planTiersUnsorted
    exact plan_fold_length (some (ow, oh)) DEFAULT_RESOLUTION_TIERS
      ([(ow, oh, "original")], [(ow, oh)])
  have hperm := List.perm_insertionSort (fun a b => tierArea b ≤ tierArea a)
    (planTiersUnsorted (some (ow, oh)))
  have hs_len : (List.insertionSort (fun a b => tierArea b ≤ tierArea a)
      (planTiersUnsorted (some (ow, oh)))).length
      = (planTiersUnsorted (some (ow, oh))).length := hperm.length_eq
  have hs_ne : List.insertionSort (fun a b => tierArea b ≤ tierArea a)
      (planTiersUnsorted (some (ow, oh))) ≠ [] := by
    intro h
    rw [h] at hs_len
    simp at hs_len
    omega
  have hplan : planTiers (some (ow, oh))
      = List.insertionSort (fun a b => tierArea b ≤ tierArea a)
        (planTiersUnsorted (some (ow, oh))) := by
    unfold planTiers
    rw [if_neg]
    simp only [List.isEmpty_iff]
    exact hs_ne
  rw [hplan]
  refine ⟨hs_ne, ?_, ?_, ?_⟩
  · intro t ht
    exact hu_bounds t (hperm.mem_iff.1 ht)
  · exact List.sorted_insertionSort _ _
  · exact (hperm.pairwise_iff (fun h => Ne.symm h)).2 hu_keys

theorem runTierLoop_accepted_rel (maxSize n : ℕ) :
    ∀ (passes : List TierPass) (idx : ℕ) (best : Option (ℕ × ℕ)) (i s : ℕ),
      (runTierLoop maxSize n idx best passes).accepted = some (i, s) →
      ∃ k, i = idx + k ∧
        (∃ p, passes[k]? = some p ∧ p.size? = some s) ∧ s ≤ maxSize ∧
        (∀ j p' s', j < k → passes[j]? = some p' → p'.size? = some s' →
          maxSize < s') ∧
        (runTierLoop maxSize n idx best passes).attempted = k + 1 := by
  intro passes
  induction passes with
  | nil =>
    intro idx best i s h
    simp [runTierLoop] at h
  | cons pass rest ih =>
    intro idx best i s h
    rcases hps : pass.size? with _ | s0
    · simp only [runTierLoop, hps] at h ⊢
      rcases ih (idx + 1) best i s h with ⟨k, hik, hget, hle, hprev, hatt⟩
      refine ⟨k + 1, by omega, ?_, hle, ?_, ?_⟩
      · simpa using hget
      · intro j p' s' hj hget' hsize'
        rcases j with _ | j
        · simp at hget'
          rw [← hget'] at hsize'
          rw [hps] at hsize'
          exact absurd hsize' (by simp)
        · exact hprev j p' s' (by omega) (by simpa using hget') hsize'
      · simp [hatt]
    · by_cases hfit : s0 ≤ maxSize
      · simp only [runTierLoop, hps, if_pos hfit] at h ⊢
        have hi : i = idx ∧ s = s0 := by
          have := h
          simp at this
          omega
        refine ⟨0, by omega, ?_, ?_, ?_, rfl⟩
        · exact ⟨pass, by simp, by rw [hps, hi.2]⟩
        · rw [hi.2]; exact hfit
        · intro j p' s' hj
          omega
      · simp only [runTierLoop, hps, if_neg hfit] at h ⊢
        rcases ih (idx + 1) _ i s h with ⟨k, hik, hget, hle, hprev, hatt⟩
        refine ⟨k + 1, by omega, ?_, hle, ?_, ?_⟩
        · simpa using hget
        · intro j p' s' hj hget' hsize'
          rcases j with _ | j
          · simp at hget'
            rw [← hget'] at hsize'
            rw [hps] at hsize'
            simp at hsize'
            omega
          · exact hprev j p' s' (by omega) (by simpa using hget') hsize'
        · simp [hatt]

theorem runTierLoop_accepted_le (maxSize n : ℕ) (passes : List TierPass)
    (idx : ℕ) (best : Option (ℕ × ℕ)) (i s : ℕ)
    (h : (runTierLoop maxSize n idx best passes).accepted = some (i, s)) :
    s ≤ maxSize := by
  rcases runTierLoop_accepted_rel maxSize n passes idx best i s h with
    ⟨k, _, _, hle, _, _⟩
  exact hle

theorem runTierLoop_all_none (maxSize n : ℕ) :
    ∀ (passes : List TierPass) (idx : ℕ) (best : Option (ℕ × ℕ)),
      (∀ p ∈ passes, p.size? = none) →
      (runTierLoop maxSize n idx best passes).accepted = none ∧
        (runTierLoop maxSize n idx best passes).attempted = passes.length := by
  intro passes
  induction passes with
  | nil => intro idx best _; simp [runTierLoop]
  | cons pass rest ih =>
    intro idx best hall
    have hps : pass.size? = none := hall pass (by simp)
    simp only [runTierLoop, hps]
    have := ih (idx + 1) best (fun p hp => hall p (by simp [hp]))
    simp only [this.1, this.2]
    simp

theorem compress_body_ok_success (env : Env) (st et : ℚ) (m0 : ℕ)
    (op : String) (r : CompressionResult) (tr : List ℕ)
    (h : compress_body env st et m0 op = Except.ok (r, tr)) :
    r.success = true := by
  unfold compress_body at h
  split_ifs at h with hdur
  split at h
  · exact absurd h (by simp)
  · rw [Except.ok.injEq] at h
    have := congrArg Prod.fst h
    simp only at this
    rw [← this]
    rfl

/-- C4: for every run of the tier loop, the accepted output is the one
produced by the first tier (in the descending-quality order tried) whose
output size is at most `max_size`; every earlier tier that produced a file
was oversized, and exactly `i + 1` tiers were attempted, so no later tier is
attempted once one fits.  Moreover, at the `compress_clip` level the accepted
tier's file is the one moved into the final output path: the returned result
carries the output path and the accepted size. -/
theorem tier_loop_first_fit :
    (∀ (maxSize n : ℕ) (passes : List TierPass) (i s : ℕ),
      (runTierLoop maxSize n 0 none passes).accepted = some (i, s) →
      (∃ p, passes[i]? = some p ∧ p.size? = some s) ∧ s ≤ maxSize ∧
      (∀ j p' s', j < i → passes[j]? = some p' → p'.size? = some s' →
        maxSize < s') ∧
      (runTierLoop maxSize n 0 none passes).attempted = i + 1) ∧
    (∀ (env : Env) (st et : ℚ) (m0 : ℕ) (op : String) (i s : ℕ),
      ¬ round3 (et - st) ≤ 0 →
      (tierLoopOut env m0).accepted = some (i, s) →
      (compress_clip env st et m0 op).1
        = success_result op s (webhook_phase env.webhookSends).1) := by
  constructor
  · intro maxSize n passes i s h
    rcases runTierLoop_accepted_rel maxSize n passes 0 none i s h with
      ⟨k, hik, hget, hle, hprev, hatt⟩
    have hk : k = i := by omega
    subst hk
    exact ⟨hget, hle, fun j p' s' hj h1 h2 => hprev j p' s' hj h1 h2, hatt⟩
  · intro env st et m0 op i s hdur hacc
    have hacc' := hacc
    unfold tierLoopOut at hacc'
    have hle := runTierLoop_accepted_le _ _ _ _ _ _ _ hacc'
    unfold compress_clip compress_body
    rw [if_neg hdur, hacc]
    simp only [recovery_phase, if_neg (not_lt.mpr hle)]

/-- Witness for `tier_loop_first_fit`: three tiers of sizes 20, 5, 7 with
`max_size = 10`; the first fitting tier (index 1, size 5) is accepted and
only two tiers are attempted. -/
theorem tier_loop_first_fit_witness :
    (runTierLoop 10 3 0 none
      [⟨[], some 20⟩, ⟨[], some 5⟩, ⟨[], some 7⟩]).accepted = some (1, 5) ∧
    (∃ p, ([⟨[], some 20⟩, ⟨[], some 5⟩,
      ⟨[], some 7⟩] : List TierPass)[1]? = some p ∧ p.size? = some 5) ∧
    (5 : ℕ) ≤ 10 ∧
    (runTierLoop 10 3 0 none
      [⟨[], some 20⟩, ⟨[], some 5⟩, ⟨[], some 7⟩]).attempted = 1 + 1 := by
  have hacc : (runTierLoop 10 3 0 none
      [⟨[], some 20⟩, ⟨[], some 5⟩, ⟨[], some 7⟩]).accepted = some (1, 5) := by
    decide
  have h := tier_loop_first_fit.1 10 3
    [⟨[], some 20⟩, ⟨[], some 5⟩, ⟨[], some 7⟩] 1 5 hacc
  exact ⟨hacc, h.1, h.2.1, h.2.2.2⟩

/-- C1: no exception propagates out of `compress_clip` — every exception the
body raises is converted into a returned failure dictionary (first
conjunct); any unsuccessful result has `file_path = None`, `file_size = 0`
and `webhook_success = False` (second conjunct); and when no tier produces
any output file at all the run is unsuccessful (third conjunct), so its
result is exactly success=false, file_path=null, file_size=0. -/
theorem compress_clip_total_failure_shape :
    (∀ (env : Env) (st et : ℚ) (m0 : ℕ) (op : String) (e : String)
      (tr : List ℕ),
      compress_body env st et m0 op = Except.error (e, tr) →
      compress_clip env st et m0 op = (failure_result e, tr ++ [0])) ∧
    (∀ (env : Env) (st et : ℚ) (m0 : ℕ) (op : String),
      (compress_clip env st et m0 op).1.success = false →
      (compress_clip env st et m0 op).1.filePath = none ∧
      (compress_clip env st et m0 op).1.fileSize = 0 ∧
      (compress_clip env st et m0 op).1.webhookSuccess = false) ∧
    (∀ (env : Env) (st et : ℚ) (m0 : ℕ) (op : String),
      (∀ i, (env.tierPass i).size? = none) →
      (compress_clip env st et m0 op).1.success = false) := by
  refine ⟨?_, ?_, ?_⟩
  · intro env st et m0 op e tr h
    unfold compress_clip
    rw [h]
  · intro env st et m0 op hfail
    rcases hbody : compress_body env st et m0 op with etr | r
    · unfold compress_clip
      rw [hbody]
      exact ⟨rfl, rfl, rfl⟩
    · exfalso
      have hsucc := compress_body_ok_success env st et m0 op r.1 r.2
        (by rw [hbody])
      unfold compress_clip at hfail
      rw [hbody] at hfail
      rw [hfail] at hsucc
      exact Bool.false_ne_true hsucc
  · intro env st et m0 op hall
    have hnone : (tierLoopOut env m0).accepted = none := by
      unfold tierLoopOut
      refine (runTierLoop_all_none _ _ _ _ _ ?_).1
      intro p hp
      rcases List.mem_map.1 hp with ⟨i, _, hpi⟩
      rw [← hpi]
      exact hall i
    unfold compress_clip compress_body
    split_ifs with hdur
    · rfl
    · rw [hnone]
      rfl

/-- Witness for `compress_clip_total_failure_shape`: an environment where
every tier's pass produces no file; the result is the failure dictionary. -/
theorem compress_clip_total_failure_shape_witness :
    (compress_clip ⟨100, some (640, 360), fun _ => ⟨[], none⟩, false, [],
      none, []⟩ 0 5 10 "out.mp4").1.filePath = none ∧
    (compress_clip ⟨100, some (640, 360), fun _ => ⟨[], none⟩, false, [],
      none, []⟩ 0 5 10 "out.mp4").1.fileSize = 0 ∧
    (compress_clip ⟨100, some (640, 360), fun _ => ⟨[], none⟩, false, [],
      none, []⟩ 0 5 10 "out.mp4").1.webhookSuccess = false :=
  compress_clip_total_failure_shape.2.1 _ 0 5 10 "out.mp4"
    (compress_clip_total_failure_shape.2.2 _ 0 5 10 "out.mp4" (fun _ => rfl))

/-- C5: in the size-recovery stage, whenever the recovery pass raises,
produces no output file, produces an empty file, or produces a file still
larger than `max_size`, the final output file is the restored pre-recovery
file — byte-identical content and size — and the stage completes normally,
so the overall operation still reports success. -/
theorem recovery_revert (maxSize : ℕ) (pre : ℕ × ℕ) (passRaised : Bool)
    (passFile : Option (ℕ × ℕ))
    (h : passRaised = true ∨ passFile = none ∨
      (∃ c s, passFile = some (c, s) ∧ (s = 0 ∨ maxSize < s))) :
    recoveryStage maxSize pre passRaised passFile = pre := by
  unfold recoveryStage
  rcases h with h | h | ⟨c, s, hfile, hbad⟩
  · rw [if_pos h]
  · split_ifs with hr
    · rfl
    · rw [h]
  · split_ifs with hr
    · rfl
    · rw [hfile]
      simp only
      rw [if_neg]
      rcases hbad with h0 | hbig
      · rw [h0]
        simp
      · intro hc
        exact absurd hc.1 (not_le.mpr hbig)

/-- Witness for `recovery_revert`: the recovery pass produces a file of size
12 against a budget of 10; the pre-recovery file (content 7, size 15) is
restored. -/
theorem recovery_revert_witness :
    ((false : Bool) = true ∨ (some ((3 : ℕ), (12 : ℕ))) = none ∨
      (∃ c s, some ((3 : ℕ), (12 : ℕ)) = some (c, s) ∧ (s = 0 ∨ 10 < s))) ∧
    recoveryStage 10 (7, 15) false (some (3, 12)) = (7, 15) := by
  have hh : (false : Bool) = true ∨ (some ((3 : ℕ), (12 : ℕ))) = none ∨
      (∃ c s, some ((3 : ℕ), (12 : ℕ)) = some (c, s) ∧ (s = 0 ∨ 10 < s)) :=
    Or.inr (Or.inr ⟨3, 12, rfl, Or.inr (by norm_num)⟩)
  exact ⟨hh, recovery_revert 10 (7, 15) false (some (3, 12)) hh⟩

/-- C9 is a code bug: `send_to_discord` raises on failure instead of
returning False, so the delivery loop's per-destination failure handling is
dead and a failing destination aborts the remaining ones.  At the failing
input (first destination fails, second would succeed), the code attempts
only one of the two destinations and returns `webhook_success = false`
although at least one destination's delivery succeeds. -/
theorem webhook_abort_on_failure :
    webhookLoop [false, true] false = (false, 1) ∧
    ([false, true].any id = true) ∧
    webhookLoop [true, false, true] false = (true, 2) := by
  exact ⟨rfl, rfl, rfl⟩

theorem ne_scale_append (r : String) :
    "-pass" ≠ "scale=" ++ r ∧ "-passlogfile" ≠ "scale=" ++ r ∧
    "-an" ≠ "scale=" ++ r := by
  obtain ⟨l⟩ := r
  refine ⟨?_, ?_, ?_⟩ <;>
    (intro h
     have hd := congrArg String.data h
     rw [String.data_append] at hd
     simp at hd)

set_option maxHeartbeats 1000000 in
theorem buildCommand_mem (p : EncodeParams) (x : String)
    (hx : x ∈ buildCommand p) :
    x ∈ (["-y", "-ss", "-i", "-t", "-c:v", "-c:a", "-b:v", "-b:a",
      "-movflags", "+faststart", "copy", "aac", "128k", "-preset", "medium",
      "-vf", "-quality", "balanced", "-hwaccel", "vaapi", "-hwaccel_device",
      "h264", "format=nv12,hwupload",
      "format=nv12,hwupload,scale_vaapi=w=1920:h=1080:format=nv12"] :
        List String) ∨
    x ∈ [p.ffmpegPath, p.inputPath, p.outputPath, p.startStr, p.durStr,
      p.codec, p.bitrate] ++ p.vaapiDevice.toList ∨
    x = "scale=" ++ p.resolution := by
  rcases p with ⟨ff, ip, opath, ss, ds, codec, bitrate, res, dev, sdk⟩
  rcases dev with _ | d <;> cases sdk <;>
    (simp only [buildCommand] at hx
     split_ifs at hx <;>
      (simp only [List.mem_cons, List.not_mem_nil, or_false] at hx
       repeat' (first | (rcases hx with rfl | hx) | (subst hx))
       all_goals simp))

theorem buildCommand_last (p : EncodeParams) :
    (buildCommand p).getLast? = some p.outputPath := by
  rcases p with ⟨ff, ip, opath, ss, ds, codec, bitrate, res, dev, sdk⟩
  rcases dev with _ | d <;> cases sdk <;>
    (simp only [buildCommand]
     split_ifs <;> rfl)

theorem buildCommand_audio (p : EncodeParams) (hbit : p.bitrate ≠ "0") :
    "-c:a" ∈ buildCommand p ∧ "aac" ∈ buildCommand p := by
  rcases p with ⟨ff, ip, opath, ss, ds, codec, bitrate, res, dev, sdk⟩
  simp only at hbit
  rcases dev with _ | d <;> cases sdk <;>
    (simp only [buildCommand, if_neg hbit]
     split_ifs <;> simp)

/-- C7 counterexample: for a plain software encode (codec `h264`, bitrate
`1000k` — non-hardware, non-stream-copy), the constructed command registers
no `pass`/`passlogfile` pair, never disables audio (`-an`), and writes the
real output in its single invocation, so no true 2-pass encoding is
performed. -/
theorem two_pass_cex :
    "-pass" ∉ buildCommand ⟨"ffmpeg", "in.mp4", "out.mp4", "0.000", "10.000",
      "h264", "1000k", "1280x720", none, false⟩ ∧
    "-passlogfile" ∉ buildCommand ⟨"ffmpeg", "in.mp4", "out.mp4", "0.000",
      "10.000", "h264", "1000k", "1280x720", none, false⟩ ∧
    "-an" ∉ buildCommand ⟨"ffmpeg", "in.mp4", "out.mp4", "0.000", "10.000",
      "h264", "1000k", "1280x720", none, false⟩ ∧
    (buildCommand ⟨"ffmpeg", "in.mp4", "out.mp4", "0.000", "10.000", "h264",
      "1000k", "1280x720", none, false⟩).getLast? = some "out.mp4" := by
  refine ⟨?_, ?_, ?_, rfl⟩ <;> (intro h; simp [buildCommand] at h)

/-- C7 (amended): every encode is single-pass for every encoder family —
the pass executor never registers a `pass`/`passlogfile` pair, never
disables audio, always writes the real output path in its one invocation,
and re-encodes audio as AAC whenever it is not in stream-copy mode.  (The
hypothesis only rules out the caller's free-form strings colliding with the
flag names.) -/
theorem single_pass_amended (p : EncodeParams)
    (hv : ∀ x ∈ [p.ffmpegPath, p.inputPath, p.outputPath, p.startStr,
      p.durStr, p.codec, p.bitrate] ++ p.vaapiDevice.toList,
      x ≠ "-pass" ∧ x ≠ "-passlogfile" ∧ x ≠ "-an") :
    "-pass" ∉ buildCommand p ∧ "-passlogfile" ∉ buildCommand p ∧
    "-an" ∉ buildCommand p ∧
    (buildCommand p).getLast? = some p.outputPath ∧
    (p.bitrate ≠ "0" → "-c:a" ∈ buildCommand p ∧ "aac" ∈ buildCommand p) := by
  refine ⟨?_, ?_, ?_, buildCommand_last p, buildCommand_audio p⟩
  · intro hmem
    rcases buildCommand_mem p _ hmem with h | h | h
    · simp at h
    · exact ((hv _ h).1) rfl
    · exact (ne_scale_append p.resolution).1 h
  · intro hmem
    rcases buildCommand_mem p _ hmem with h | h | h
    · simp at h
    · exact ((hv _ h).2.1) rfl
    · exact (ne_scale_append p.resolution).2.1 h
  · intro hmem
    rcases buildCommand_mem p _ hmem with h | h | h
    · simp at h
    · exact ((hv _ h).2.2) rfl
    · exact (ne_scale_append p.resolution).2.2 h

/-- Witness for `single_pass_amended`: a VA-API encode on a concrete
parameter set. -/
theorem single_pass_amended_witness :
    "-pass" ∉ buildCommand ⟨"ffmpeg", "in.mp4", "out.mp4", "0.000", "10.000",
      "h264_vaapi", "2000k", "1920x1080", some "/dev/dri/renderD128",
      false⟩ ∧
    "-an" ∉ buildCommand ⟨"ffmpeg", "in.mp4", "out.mp4", "0.000", "10.000",
      "h264_vaapi", "2000k", "1920x1080", some "/dev/dri/renderD128",
      false⟩ := by
  have h := single_pass_amended ⟨"ffmpeg", "in.mp4", "out.mp4", "0.000",
    "10.000", "h264_vaapi", "2000k", "1920x1080",
    some "/dev/dri/renderD128", false⟩
    (by intro x hx; simp at hx; rcases hx with h | h | h | h | h | h | h | h <;>
      (subst h; refine ⟨?_, ?_, ?_⟩ <;> decide))
  exact ⟨h.1, h.2.2.1⟩

/-- C10: for every VA-API encode (codec `h264_vaapi` or `hevc_vaapi`, bitrate
not the stream-copy sentinel, a VA-API device available): on ordinary Linux
the command scales to the fixed 1920x1080 via `scale_vaapi` and the caller's
resolution argument has no effect on the command at all; on Steam Deck the
filter chain is exactly `format=nv12,hwupload` with no scale filter, so the
tier resolution ladder never affects the output resolution. -/
theorem vaapi_fixed_scale (p : EncodeParams) (d r2 : String)
    (hcodec : p.codec = "h264_vaapi" ∨ p.codec = "hevc_vaapi")
    (hbit : p.bitrate ≠ "0") (hdev : p.vaapiDevice = some d) :
    buildCommand { p with resolution := r2 } = buildCommand p ∧
    (p.steamDeck = false →
      buildCommand p
        = [p.ffmpegPath, "-y", "-hwaccel", "vaapi", "-hwaccel_device", d,
           "-ss", p.startStr, "-i", p.inputPath, "-t", p.durStr,
           "-vf", "format=nv12,hwupload,scale_vaapi=w=1920:h=1080:format=nv12",
           "-c:v", p.codec, "-b:v", p.bitrate,
           "-c:a", "aac", "-b:a", "128k", "-movflags", "+faststart",
           p.outputPath]) ∧
    (p.steamDeck = true →
      buildCommand p
        = [p.ffmpegPath, "-y", "-hwaccel", "vaapi", "-hwaccel_device", d,
           "-ss", p.startStr, "-i", p.inputPath, "-t", p.durStr,
           "-vf", "format=nv12,hwupload", "-c:v", p.codec, "-b:v", p.bitrate,
           "-c:a", "aac", "-b:a", "128k", "-movflags", "+faststart",
           p.outputPath]) := by
  rcases p with ⟨ff, ip, opath, ss, ds, codec, bitrate, res, dev, sdk⟩
  simp only at hcodec hbit hdev
  subst hdev
  cases sdk <;>
    (refine ⟨?_, ?_, ?_⟩ <;>
      simp [buildCommand, if_neg hbit, if_pos hcodec])

/-- Witness for `vaapi_fixed_scale`: a concrete `hevc_vaapi` encode; the
command ignores the requested `854x480` resolution. -/
theorem vaapi_fixed_scale_witness :
    buildCommand ⟨"ffmpeg", "in.mp4", "out.mp4", "0.000", "10.000",
      "hevc_vaapi", "2000k", "854x480", some "/dev/dri/renderD128", false⟩
      = buildCommand ⟨"ffmpeg", "in.mp4", "out.mp4", "0.000", "10.000",
        "hevc_vaapi", "2000k", "1920x1080", some "/dev/dri/renderD128",
        false⟩ ∧
    buildCommand ⟨"ffmpeg", "in.mp4", "out.mp4", "0.000", "10.000",
      "hevc_vaapi", "2000k", "1920x1080", some "/dev/dri/renderD128", false⟩
      = ["ffmpeg", "-y", "-hwaccel", "vaapi", "-hwaccel_device",
         "/dev/dri/renderD128", "-ss", "0.000", "-i", "in.mp4", "-t",
         "10.000", "-vf",
         "format=nv12,hwupload,scale_vaapi=w=1920:h=1080:format=nv12",
         "-c:v", "hevc_vaapi", "-b:v", "2000k", "-c:a", "aac", "-b:a",
         "128k", "-movflags", "+faststart", "out.mp4"] := by
  have h := vaapi_fixed_scale ⟨"ffmpeg", "in.mp4", "out.mp4", "0.000",
    "10.000", "hevc_vaapi", "2000k", "1920x1080", some "/dev/dri/renderD128",
    false⟩ "/dev/dri/renderD128" "854x480" (Or.inr rfl) (by decide) rfl
  exact ⟨h.1, h.2.1 rfl⟩

theorem tierEmit_eq_div (n idx p : ℕ) (hn : 0 < n) :
    tierEmit n idx p = (9000 * idx + 90 * p) / (100 * n) := by
  unfold tierEmit
  have harg : (0 : ℚ) ≤ (idx : ℚ) / (n : ℚ) * 90
      + (p : ℚ) / 100 * (1 / (n : ℚ) * 90) := by
    positivity
  have hn' : ((n : ℚ)) ≠ 0 := by
    exact_mod_cast hn.ne'
  have heq : (idx : ℚ) / (n : ℚ) * 90 + (p : ℚ) / 100 * (1 / (n : ℚ) * 90)
      = ((9000 * idx + 90 * p : ℕ) : ℚ) / ((100 * n : ℕ) : ℚ) := by
    push_cast
    field_simp
    ring
  rw [pyInt_of_nonneg harg, heq, Int.floor_toNat, Nat.floor_div_eq_div]

theorem tierEmit_mono (n idx : ℕ) (hn : 0 < n) {p q : ℕ} (hpq : p ≤ q) :
    tierEmit n idx p ≤ tierEmit n idx q := by
  rw [tierEmit_eq_div n idx p hn, tierEmit_eq_div n idx q hn]
  exact Nat.div_le_div_right (by omega)

theorem tierEmit_le_90 (n idx p : ℕ) (hn : 0 < n) (hidx : idx < n)
    (hp : p ≤ 100) : tierEmit n idx p ≤ 90 := by
  rw [tierEmit_eq_div n idx p hn]
  have h1 : 9000 * idx + 90 * p ≤ 90 * (100 * n) := by
    have : idx + 1 ≤ n := hidx
    nlinarith
  calc (9000 * idx + 90 * p) / (100 * n) ≤ 90 * (100 * n) / (100 * n) :=
        Nat.div_le_div_right h1
    _ = 90 := Nat.mul_div_cancel 90 (by omega)

theorem tierEmit_base_le (n idx p : ℕ) (hn : 0 < n) :
    9000 * idx / (100 * n) ≤ tierEmit n idx p := by
  rw [tierEmit_eq_div n idx p hn]
  exact Nat.div_le_div_right (by omega)

theorem tierEmit_100_le_next (n idx p : ℕ) (hn : 0 < n) :
    tierEmit n idx 100 ≤ 9000 * (idx + 1) / (100 * n) := by
  rw [tierEmit_eq_div n idx 100 hn]
  exact Nat.div_le_div_right (by omega)

theorem tierSegment_ne_nil (n idx : ℕ) (emits : List ℕ) :
    tierSegment n idx emits ≠ [] := by
  unfold tierSegment
  simp

theorem tierSegment_getLast (n idx : ℕ) (emits : List ℕ) :
    (tierSegment n idx emits).getLast? = some (tierEmit n idx 100) := by
  unfold tierSegment
  rw [List.map_append]
  exact List.getLast?_concat _

theorem tierSegment_mem (n idx : ℕ) (emits : List ℕ) (v : ℕ)
    (hv : v ∈ tierSegment n idx emits) :
    ∃ p ≤ 100, v = tierEmit n idx p := by
  unfold tierSegment at hv
  rcases List.mem_map.1 hv with ⟨p, hp, hpe⟩
  rcases List.mem_append.1 hp with hp | hp
  · rcases List.mem_map.1 hp with ⟨q, _, hq⟩
    exact ⟨p, by omega, hpe.symm⟩
  · have : p = 100 := by simpa using hp
    exact ⟨100, le_refl _, by rw [← hpe, this]⟩

theorem tierSegment_chain (n idx : ℕ) (emits : List ℕ) (hn : 0 < n)
    (he : List.Chain' (fun a b : ℕ => a ≤ b) emits) :
    List.Chain' (fun a b : ℕ => a ≤ b) (tierSegment n idx emits) := by
  unfold tierSegment
  rw [List.chain'_map]
  apply List.chain'_append.mpr
  refine ⟨?_, List.chain'_singleton _, ?_⟩
  · rw [List.chain'_map]
    exact he.imp (fun a b hab =>
      tierEmit_mono n idx hn (min_le_min (le_refl 100) hab))
  · intro x hx y hy
    have hy' : y = 100 := by
      have := hy
      simp at this
      omega
    have hx' : x ∈ emits.map (fun p => min 100 p) :=
      List.mem_of_getLast?_eq_some hx
    rcases List.mem_map.1 hx' with ⟨q, _, hq⟩
    subst hy'
    apply tierEmit_mono n idx hn
    rw [← hq]
    omega

theorem runTierLoop_trace_props (maxSize n : ℕ) (hn : 0 < n) :
    ∀ (passes : List TierPass) (idx : ℕ) (best : Option (ℕ × ℕ)),
      idx + passes.length ≤ n →
      (∀ p ∈ passes, List.Chain' (fun a b : ℕ => a ≤ b) p.emits) →
      List.Chain' (fun a b : ℕ => a ≤ b)
        (runTierLoop maxSize n idx best passes).trace ∧
      (∀ v ∈ (runTierLoop maxSize n idx best passes).trace, v ≤ 90) ∧
      (∀ v ∈ (runTierLoop maxSize n idx best passes).trace,
        9000 * idx / (100 * n) ≤ v) := by
  intro passes
  induction passes with
  | nil =>
    intro idx best hlen hch
    simp [runTierLoop]
  | cons pass rest ih =>
    intro idx best hlen hch
    have hidx : idx < n := by
      have := hlen
      simp at this
      omega
    have hchp : List.Chain' (fun a b : ℕ => a ≤ b) pass.emits :=
      hch pass (by simp)
    have hchr : ∀ p ∈ rest, List.Chain' (fun a b : ℕ => a ≤ b) p.emits :=
      fun p hp => hch p (by simp [hp])
    have hlen' : idx + 1 + rest.length ≤ n := by
      have := hlen
      simp at this
      omega
    have hsegchain := tierSegment_chain n idx pass.emits hn hchp
    have hseg90 : ∀ v ∈ tierSegment n idx pass.emits, v ≤ 90 := by
      intro v hv
      rcases tierSegment_mem n idx pass.emits v hv with ⟨p, hp, rfl⟩
      exact tierEmit_le_90 n idx p hn hidx hp
    have hsegbase : ∀ v ∈ tierSegment n idx pass.emits,
        9000 * idx / (100 * n) ≤ v := by
      intro v hv
      rcases tierSegment_mem n idx pass.emits v hv with ⟨p, hp, rfl⟩
      exact tierEmit_base_le n idx p hn
    have hbase90 : 9000 * idx / (100 * n) ≤ 90 := by
      have h1 : 9000 * idx ≤ 90 * (100 * n) := by nlinarith
      calc 9000 * idx / (100 * n) ≤ 90 * (100 * n) / (100 * n) :=
            Nat.div_le_div_right h1
        _ = 90 := Nat.mul_div_cancel 90 (by omega)
    have hbasemono : 9000 * idx / (100 * n) ≤ 9000 * (idx + 1) / (100 * n) :=
      Nat.div_le_div_right (by omega)
    have hboundary : ∀ (b : Option (ℕ × ℕ)),
        ∀ x ∈ (tierSegment n idx pass.emits).getLast?,
        ∀ y ∈ (runTierLoop maxSize n (idx + 1) b rest).trace.head?, x ≤ y := by
      intro b x hx y hy
      have hx' : x = tierEmit n idx 100 := by
        rw [tierSegment_getLast] at hx
        exact (by simpa using hx : tierEmit n idx 100 = x).symm
      have hy' := (ih (idx + 1) b hlen' hchr).2.2 y (List.mem_of_mem_head? hy)
      rw [hx']
      exact le_trans (tierEmit_100_le_next n idx 0 hn) hy'
    rcases hps : pass.size? with _ | s
    · simp only [runTierLoop, hps]
      refine ⟨?_, ?_, ?_⟩
      · exact List.Chain'.append hsegchain (ih (idx + 1) best hlen' hchr).1
          (hboundary best)
      · intro v hv
        rcases List.mem_append.1 hv with hv | hv
        · exact hseg90 v hv
        · exact (ih (idx + 1) best hlen' hchr).2.1 v hv
      · intro v hv
        rcases List.mem_append.1 hv with hv | hv
        · exact hsegbase v hv
        · exact le_trans hbasemono ((ih (idx + 1) best hlen' hchr).2.2 v hv)
    · by_cases hfit : s ≤ maxSize
      · simp only [runTierLoop, hps, if_pos hfit]
        refine ⟨?_, ?_, ?_⟩
        · refine List.Chain'.append hsegchain (List.chain'_singleton _) ?_
          intro x hx y hy
          have hx' : x = tierEmit n idx 100 := by
            rw [tierSegment_getLast] at hx
            exact (by simpa using hx : tierEmit n idx 100 = x).symm
          have hy' : y = 90 := by simpa using hy.symm
          rw [hx', hy']
          exact tierEmit_le_90 n idx 100 hn hidx (le_refl _)
        · intro v hv
          rcases List.mem_append.1 hv with hv | hv
          · exact hseg90 v hv
          · have hv' : v = 90 := by simpa using hv
            omega
        · intro v hv
          rcases List.mem_append.1 hv with hv | hv
          · exact hsegbase v hv
          · have hv' : v = 90 := by simpa using hv
            rw [hv']
            exact hbase90
      · simp only [runTierLoop, hps, if_neg hfit]
        refine ⟨?_, ?_, ?_⟩
        · exact List.Chain'.append hsegchain (ih (idx + 1) _ hlen' hchr).1
            (hboundary _)
        · intro v hv
          rcases List.mem_append.1 hv with hv | hv
          · exact hseg90 v hv
          · exact (ih (idx + 1) _ hlen' hchr).2.1 v hv
        · intro v hv
          rcases List.mem_append.1 hv with hv | hv
          · exact hsegbase v hv
          · exact le_trans hbasemono ((ih (idx + 1) _ hlen' hchr).2.2 v hv)

theorem planTiers_length_pos (o : Option (ℕ × ℕ)) : 0 < (planTiers o).length := by
  unfold planTiers
  split_ifs with h
  · rcases o with _ | o <;> simp
  · simp only [List.isEmpty_iff] at h
    exact List.length_pos.2 h

theorem trace_tail_chain (l tail : List ℕ)
    (hl : List.Chain' (fun a b : ℕ => a ≤ b) l) (h90 : ∀ v ∈ l, v ≤ 90)
    (htail : tail = [100] ∨ tail = [95, 100]) :
    List.Chain' (fun a b : ℕ => a ≤ b) (l ++ tail) ∧
    ∀ v ∈ l ++ tail, v ≤ 100 := by
  constructor
  · refine List.Chain'.append hl ?_ ?_
    · rcases htail with rfl | rfl <;> simp
    · intro x hx y hy
      have hx90 : x ≤ 90 := h90 x (List.mem_of_getLast?_eq_some hx)
      have hy95 : 95 ≤ y := by
        rcases htail with rfl | rfl <;> (simp at hy; omega)
      omega
  · intro v hv
    rcases List.mem_append.1 hv with hv | hv
    · exact le_trans (h90 v hv) (by omega)
    · rcases htail with rfl | rfl <;> (simp at hv; omega)

theorem trace_zeros_chain (l : List ℕ)
    (hl : List.Chain' (fun a b : ℕ => a ≤ b) l) :
    List.Chain' (fun a b : ℕ => a ≤ b ∨ b = 0) (l ++ [0] ++ [0]) := by
  rw [List.append_assoc]
  refine List.Chain'.append (hl.imp fun a b h => Or.inl h) ?_ ?_
  · simp
  · intro x hx y hy
    have : y = 0 := by simpa using hy.symm
    exact Or.inr this

theorem runTierLoop_trace_le_90 (maxSize n : ℕ) (hn : 0 < n) :
    ∀ (passes : List TierPass) (idx : ℕ) (best : Option (ℕ × ℕ)),
      idx + passes.length ≤ n →
      ∀ v ∈ (runTierLoop maxSize n idx best passes).trace, v ≤ 90 := by
  intro passes
  induction passes with
  | nil =>
    intro idx best hlen v hv
    simp [runTierLoop] at hv
  | cons pass rest ih =>
    intro idx best hlen v hv
    have hidx : idx < n := by
      simp at hlen
      omega
    have hlen' : idx + 1 + rest.length ≤ n := by
      simp at hlen
      omega
    have hseg90 : ∀ w ∈ tierSegment n idx pass.emits, w ≤ 90 := by
      intro w hw
      rcases tierSegment_mem n idx pass.emits w hw with ⟨p, hp, rfl⟩
      exact tierEmit_le_90 n idx p hn hidx hp
    rcases hps : pass.size? with _ | s
    · simp only [runTierLoop, hps] at hv
      rcases List.mem_append.1 hv with hv | hv
      · exact hseg90 v hv
      · exact ih (idx + 1) best hlen' v hv
    · by_cases hfit : s ≤ maxSize
      · simp only [runTierLoop, hps, if_pos hfit] at hv
        rcases List.mem_append.1 hv with hv | hv
        · exact hseg90 v hv
        · have hv' : v = 90 := by simpa using hv
          omega
      · simp only [runTierLoop, hps, if_neg hfit] at hv
        rcases List.mem_append.1 hv with hv | hv
        · exact hseg90 v hv
        · exact ih (idx + 1) _ hlen' v hv

/-- C6 (amended): over every complete run, the values passed to the progress
callback are integers in [0,100] — unconditionally; and when every encoder
pass's own reported progress sequence is non-decreasing (the
hardware-to-software retry inside a pass can restart it, see the
counterexample), the full sequence is monotonically non-decreasing on a
successful run, and in general any decrease is a reset to 0 on fatal
failure. -/
theorem progress_monotone_amended (env : Env) (st et : ℚ) (m0 : ℕ)
    (op : String) :
    (∀ v ∈ (compress_clip env st et m0 op).2, v ≤ 100) ∧
    ((∀ i, List.Chain' (fun a b : ℕ => a ≤ b) (env.tierPass i).emits) →
      ((compress_clip env st et m0 op).1.success = true →
        List.Chain' (fun a b : ℕ => a ≤ b) (compress_clip env st et m0 op).2) ∧
      List.Chain' (fun a b : ℕ => a ≤ b ∨ b = 0)
        (compress_clip env st et m0 op).2) := by
  have hn : 0 < (planTiers env.originalResolution).length :=
    planTiers_length_pos env.originalResolution
  have hplen : (passes_list env (planTiers env.originalResolution).length).length
      = (planTiers env.originalResolution).length := by
    unfold passes_list
    simp
  have hlo90 : ∀ v ∈ (tierLoopOut env m0).trace, v ≤ 90 := by
    unfold tierLoopOut
    exact runTierLoop_trace_le_90 (adjusted_max_size env m0) _ hn _ 0 none
      (by rw [hplen]; omega)
  have hchain : (∀ i, List.Chain' (fun a b : ℕ => a ≤ b) (env.tierPass i).emits) →
      List.Chain' (fun a b : ℕ => a ≤ b) (tierLoopOut env m0).trace := by
    intro hmono
    have hch : ∀ p ∈ passes_list env (planTiers env.originalResolution).length,
        List.Chain' (fun a b : ℕ => a ≤ b) p.emits := by
      intro p hp
      rcases List.mem_map.1 hp with ⟨i, _, hpi⟩
      rw [← hpi]
      exact hmono i
    unfold tierLoopOut
    exact (runTierLoop_trace_props (adjusted_max_size env m0) _ hn _ 0 none
      (by rw [hplen]; omega) hch).1
  by_cases hdur : round3 (et - st) ≤ 0
  · unfold compress_clip compress_body
    rw [if_pos hdur]
    refine ⟨?_, ?_⟩
    · intro v hv
      simp at hv
      omega
    · intro _
      refine ⟨?_, ?_⟩
      · intro hsucc
        exact absurd hsucc (by simp [failure_result])
      · simp
  · rcases hacc : (tierLoopOut env m0).accepted with _ | a
    · unfold compress_clip compress_body
      rw [if_neg hdur, hacc]
      refine ⟨?_, ?_⟩
      · intro v hv
        simp only [List.mem_append, List.mem_cons, List.not_mem_nil,
          or_false] at hv
        rcases hv with hv | hv
        · rcases hv with hv | hv
          · exact le_trans (hlo90 v hv) (by omega)
          · omega
        · omega
      · intro hmono
        refine ⟨?_, ?_⟩
        · intro hsucc
          exact absurd hsucc (by simp [failure_result])
        · exact trace_zeros_chain _ (hchain hmono)
    · have hle : a.2 ≤ adjusted_max_size env m0 := by
        have hacc' := hacc
        unfold tierLoopOut at hacc'
        exact runTierLoop_accepted_le _ _ _ _ _ a.1 a.2 hacc'
      have hrec : recovery_phase env (adjusted_max_size env m0) a.2
          = (a.2, []) := by
        unfold recovery_phase
        rw [if_neg (not_lt.mpr hle)]
      have hwh : (webhook_phase env.webhookSends).2 = [] ∨
          (webhook_phase env.webhookSends).2 = [95] := by
        unfold webhook_phase
        split_ifs <;> simp
      have htail : (webhook_phase env.webhookSends).2 ++ [100] = [100] ∨
          (webhook_phase env.webhookSends).2 ++ [100] = [95, 100] := by
        rcases hwh with h | h <;> rw [h] <;> simp
      have htr : (compress_clip env st et m0 op).2
          = (tierLoopOut env m0).trace
            ++ ((webhook_phase env.webhookSends).2 ++ [100]) := by
        unfold compress_clip compress_body
        rw [if_neg hdur, hacc]
        simp only [hrec]
        simp
      refine ⟨?_, ?_⟩
      · rw [htr]
        intro v hv
        rcases List.mem_append.1 hv with hv | hv
        · exact le_trans (hlo90 v hv) (by omega)
        · rcases htail with h | h <;> (rw [h] at hv; simp at hv; omega)
      · intro hmono
        have hmain := trace_tail_chain (tierLoopOut env m0).trace
          ((webhook_phase env.webhookSends).2 ++ [100]) (hchain hmono)
          hlo90 htail
        refine ⟨?_, ?_⟩
        · intro _
          rw [htr]
          exact hmain.1
        · rw [htr]
          exact hmain.1.imp fun a b h => Or.inl h

/-- C6 counterexample: a complete, successful run in which the reported
progress decreases without any fatal failure.  The single tier's encoder
pass reports 80% and then restarts at 0% (exactly what the
hardware-to-software retry inside `compress_and_send_video` produces), so
the callback receives 72 followed by 0 while the run still succeeds:
the sequence is not monotonically non-decreasing and the decrease is not a
reset to 0 on fatal failure. -/
theorem progress_decrease_cex :
    (compress_clip ⟨100, some (640, 360), fun _ => ⟨[80, 0], some 5⟩, false,
      [], none, []⟩ 0 5 7 "out.mp4").1.success = true ∧
    (compress_clip ⟨100, some (640, 360), fun _ => ⟨[80, 0], some 5⟩, false,
      [], none, []⟩ 0 5 7 "out.mp4").2 = [72, 0, 90, 90, 100] ∧
    ¬ List.Chain' (fun a b : ℕ => a ≤ b)
      (compress_clip ⟨100, some (640, 360), fun _ => ⟨[80, 0], some 5⟩, false,
        [], none, []⟩ 0 5 7 "out.mp4").2 := by
  have hplan : planTiers (some (640, 360)) = [(640, 360, "original")] := rfl
  have htE80 : tierEmit 1 0 80 = 72 := by
    rw [tierEmit_eq_div 1 0 80 one_pos]
  have htE0 : tierEmit 1 0 0 = 0 := by
    rw [tierEmit_eq_div 1 0 0 one_pos]
  have htE100 : tierEmit 1 0 100 = 90 := by
    rw [tierEmit_eq_div 1 0 100 one_pos]
  have hseg : tierSegment 1 0 [80, 0] = [72, 0, 90] := by
    unfold tierSegment
    norm_num [htE80, htE0, htE100]
  have hdur : ¬ round3 ((5 : ℚ) - 0) ≤ 0 := by
    norm_num [round3, pyRound]
  have hlo : tierLoopOut (⟨100, some (640, 360), fun _ => ⟨[80, 0], some 5⟩,
      false, [], none, []⟩ : Env) 7
      = ⟨[72, 0, 90, 90], some (0, 5), some (0, 5), 1⟩ := by
    unfold tierLoopOut
    rw [show (⟨100, some (640, 360), fun _ => ⟨[80, 0], some 5⟩, false, [],
      none, []⟩ : Env).originalResolution = some (640, 360) from rfl, hplan]
    norm_num [adjusted_max_size, passes_list, runTierLoop, hseg]
  have hcc : compress_clip ⟨100, some (640, 360), fun _ => ⟨[80, 0], some 5⟩,
      false, [], none, []⟩ 0 5 7 "out.mp4"
      = (success_result "out.mp4" 5 false, [72, 0, 90, 90, 100]) := by
    unfold compress_clip compress_body
    rw [if_neg hdur, hlo]
    norm_num [recovery_phase, webhook_phase, adjusted_max_size]
  refine ⟨by rw [hcc]; rfl, by rw [hcc], ?_⟩
  rw [hcc]
  norm_num [List.chain'_cons]

/-- Witness for `progress_monotone_amended`: a one-tier run whose pass emits
no intermediate progress; all values are in [0,100] and any decrease could
only be a reset to 0. -/
theorem progress_monotone_amended_witness :
    (∀ v ∈ (compress_clip ⟨100, some (640, 360), fun _ => ⟨[], some 5⟩, false,
      [], none, []⟩ 0 5 7 "out.mp4").2, v ≤ 100) ∧
    List.Chain' (fun a b : ℕ => a ≤ b ∨ b = 0)
      (compress_clip ⟨100, some (640, 360), fun _ => ⟨[], some 5⟩, false, [],
        none, []⟩ 0 5 7 "out.mp4").2 :=
  ⟨(progress_monotone_amended _ 0 5 7 "out.mp4").1,
   ((progress_monotone_amended _ 0 5 7 "out.mp4").2
      (fun _ => List.chain'_nil)).2⟩
